import Mathlib

/-! Verification of the Zap dangerous-writing plugin core logic
(`src/main.ts`): word counter, penalty engine, idle-watchdog warning
intensity, and the session state machine, embedded shallowly.

Document text is modelled as `List Char`; JavaScript's `Date.now()` is an
explicit `now : Nat` parameter (milliseconds); host timers are a list of
pending `Timer` values carrying the ids that `window.setInterval` /
`window.setTimeout` would return; editor writes (`editor.setValue`) are an
explicit trace of written contents returned by each handler.
-/

namespace Zap

/-- Document text, formally a sequence of characters. -/
abbrev Str := List Char

/-! Section: word counter (`countWords`, src/main.ts lines 643-648). -/

/-- One step of the model of JavaScript `String.split(/\s+/)`: splits at
maximal runs of whitespace, keeping the (possibly empty) fragments between
separators, exactly as the regex split does. -/
def splitWs : Str → List Str
  | [] => [[]]
  | [c] => if c.isWhitespace then [[], []] else [[c]]
  | c :: d :: cs =>
    if c.isWhitespace then
      if d.isWhitespace then splitWs (d :: cs)
      else [] :: splitWs (d :: cs)
    else
      match splitWs (d :: cs) with
      | [] => [[c]]
      | l :: ls => (c :: l) :: ls

/-- Model of JavaScript `String.trimStart`. -/
def trimStart (s : Str) : Str := s.dropWhile Char.isWhitespace

/-- Model of JavaScript `String.trimEnd`. -/
def trimEnd (s : Str) : Str := (s.reverse.dropWhile Char.isWhitespace).reverse

/-- Model of JavaScript `String.trim` (both ends). -/
def trimBoth (s : Str) : Str := trimEnd (trimStart s)

/-- Function `countWords` from src/main.ts lines 643-648:
`text.trim().split(/\s+/).filter((word) => word.length > 0).length`. -/
def countWords (text : Str) : Nat :=
  ((splitWs (trimBoth text)).filter (fun w => w.length > 0)).length

/-- Modelled from the spec: "the count of maximal non-whitespace runs"
(spec section 4.1). `countRunsAux b s` counts the maximal non-whitespace
runs of `s`, where `b` records whether the previous character (if any)
was whitespace (`b = true` at the start of the text). -/
def countRunsAux : Bool → Str → Nat
  | _, [] => 0
  | prevWs, c :: cs =>
    if c.isWhitespace then countRunsAux true cs
    else (if prevWs then 1 else 0) + countRunsAux false cs

/-- Modelled from the spec: the number of maximal non-whitespace runs. -/
def maximalNonWsRuns (s : Str) : Nat := countRunsAux true s

/-! Section: penalty engine (`applyPenalty`, src/main.ts lines 403-444). -/

/-- The three penalty modes (`PenaltyType` in src/settings.ts). -/
inductive PenaltyType
  | all
  | paragraph
  | sentence
deriving DecidableEq, Repr

/-- Sentence-terminal punctuation, the character class `[.!?]`. -/
def isTerminal (c : Char) : Bool := c == '.' || c == '!' || c == '?'

/-- Model of `result.match(/[.!?][^.!?]*$/)` followed by
`result.slice(0, result.length - match[0].length)`: the regex matches from
the last terminal mark (inclusive) to the end of the string, so the slice
keeps exactly the characters strictly before the last terminal mark.
Returns `none` when no terminal mark occurs (no regex match). -/
def dropLastSentenceMatch (s : Str) : Option Str :=
  match s.reverse.dropWhile (fun c => !isTerminal c) with
  | [] => none
  | _ :: rest => some rest.reverse

/-- Model of JavaScript `String.split(sep)` for a single-character
separator (used for `result.split("\n")`): splits at every occurrence,
keeping empty fragments. -/
def splitOnChar (sep : Char) : Str → List Str
  | [] => [[]]
  | c :: cs =>
    if c == sep then [] :: splitOnChar sep cs
    else
      match splitOnChar sep cs with
      | [] => [[c]]
      | l :: ls => (c :: l) :: ls

/-- Model of JavaScript `Array.join(sep)`. -/
def joinSep (sep : Str) : List Str → Str
  | [] => []
  | [l] => l
  | l :: ls => l ++ sep ++ joinSep sep ls

/-- One step of the model of `content.split(/\n\n+/)`: the regex split at
maximal runs of two-or-more newlines. The flag is `true` while the scan is
inside a separator run whose boundary has already been emitted. -/
def splitParasAux : Bool → Str → List Str
  | _, [] => [[]]
  | true, c :: cs =>
    if c == '\n' then splitParasAux true cs
    else
      match splitParasAux false cs with
      | [] => [[c]]
      | l :: ls => (c :: l) :: ls
  | false, c :: cs =>
    if c == '\n' && cs.head? == some '\n' then [] :: splitParasAux true cs
    else
      match splitParasAux false cs with
      | [] => [[c]]
      | l :: ls => (c :: l) :: ls

/-- Model of JavaScript `content.split(/\n\n+/)`. -/
def splitParas (s : Str) : List Str := splitParasAux false s

/-- Function `applyPenalty` from src/main.ts lines 403-444 (the `editor` parameter
of the source function is unused there and omitted). -/
def applyPenalty (penaltyType : PenaltyType) (content : Str) : Str :=
  match penaltyType with
  | .all => []
  | .sentence =>
    let result := trimEnd content
    match dropLastSentenceMatch result with
    | some r => r
    | none =>
      let lines := splitOnChar '\n' result
      if lines.length > 1 then joinSep ['\n'] lines.dropLast
      else []
  | .paragraph =>
    let paragraphs := splitParas content
    if paragraphs.length > 1 then joinSep ['\n', '\n'] paragraphs.dropLast
    else []

/-! Section: idle-watchdog warning intensity
(`startWarningInterval`, src/main.ts lines 363-401). -/

/-- The warning-intensity value computed by the 50 ms warning poll
(src/main.ts lines 389-396), with the exact real arithmetic modelled over
`ℚ`: given `remaining` idle milliseconds and the `threshold`
(`warningThresholdSeconds * 1000`), if `remaining ≤ threshold` the poll
computes `progress = 1 - remaining / threshold` and the eased intensity
`1 - (1 - progress)^3`; for `remaining > threshold` no warning is shown
(intensity 0). -/
def warningIntensity (threshold remaining : ℚ) : ℚ :=
  if remaining ≤ threshold then
    let progress : ℚ := 1 - remaining / threshold
    1 - (1 - progress) ^ 3
  else 0

/-! Section: session state machine (src/main.ts lines 27-661).

The plugin's mutable session fields (src/main.ts lines 31-48) become an
explicit `PluginState`; each timer created by `window.setInterval` /
`window.setTimeout` is recorded in `pendingTimers` with the id the host
would return (`nextTimerId` mirrors the host's id counter), and
`window.clearInterval` / `window.clearTimeout` remove it. Handlers that
can call `editor.setValue` additionally return the trace of written
contents. -/

/-- Structure `SessionRecord` from src/stats.ts. -/
structure SessionRecord where
  timestamp : Nat
  durationSeconds : Nat
  wordsWritten : Nat
  completed : Bool
deriving DecidableEq, Repr

/-- The settings fields consumed by the session logic
(`DangerousWritingSettings`, src/settings.ts; display-only fields such as
`warningColor` are not part of the core state). -/
structure Settings where
  idleTimeoutSeconds : Nat
  warningThresholdSeconds : Nat
  practiceMode : Bool
  penaltyType : PenaltyType
deriving DecidableEq, Repr

/-- The role of a pending host timer. -/
inductive TimerKind
  | goalCheck
  | idleTimeout
  | warningPoll
deriving DecidableEq, Repr

/-- A pending host timer: its host-assigned id and its role. -/
structure Timer where
  id : Nat
  kind : TimerKind
deriving DecidableEq, Repr

/-- Structure `SessionConfig` from src/modal.ts. -/
structure SessionConfig where
  durationMinutes : Option Nat
  wordCountGoal : Option Nat
deriving DecidableEq, Repr

/-- A foreground markdown view: the file it shows (as an opaque id) and
its current editor content. -/
structure View where
  file : Nat
  content : Str
deriving DecidableEq, Repr

/-- The plugin's session state (fields of `DangerousWritingPlugin`,
src/main.ts lines 28-48), plus the pending host timers. -/
structure PluginState where
  sessionActive : Bool
  sessionStartTime : Nat
  sessionDurationMs : Nat
  wordCountGoal : Option Nat
  initialWordCount : Nat
  activeFile : Option Nat
  initialContent : Str
  sessionInterval : Option Nat
  idleWatchdogTimeout : Option Nat
  statusBarInterval : Option Nat
  lastActivityTime : Nat
  sessions : List SessionRecord
  pendingTimers : List Timer
  nextTimerId : Nat
deriving DecidableEq, Repr

/-- The field initializers of src/main.ts lines 29-48: no active session,
empty history, no pending timers. -/
def initialState : PluginState where
  sessionActive := false
  sessionStartTime := 0
  sessionDurationMs := 0
  wordCountGoal := none
  initialWordCount := 0
  activeFile := none
  initialContent := []
  sessionInterval := none
  idleWatchdogTimeout := none
  statusBarInterval := none
  lastActivityTime := 0
  sessions := []
  pendingTimers := []
  nextTimerId := 0

/-- Host `window.setInterval` / `window.setTimeout`: registers a pending
timer and returns its id. -/
def setTimer (s : PluginState) (k : TimerKind) : PluginState × Nat :=
  ({ s with
      pendingTimers := s.pendingTimers ++ [⟨s.nextTimerId, k⟩],
      nextTimerId := s.nextTimerId + 1 },
   s.nextTimerId)

/-- Host `window.clearInterval` / `window.clearTimeout`: removes the
pending timer with the given id. -/
def clearTimer (s : PluginState) (id : Nat) : PluginState :=
  { s with pendingTimers := s.pendingTimers.filter (fun t => t.id ≠ id) }

/-- Function `recordSession` from src/main.ts lines 209-230: appends a record
(timestamped `Date.now()`) to the history. Persistence and stats-view
refresh are host I/O with no effect on this state. -/
def recordSession (s : PluginState) (wordsWritten durationSeconds : Nat)
    (completed : Bool) (now : Nat) : PluginState :=
  { s with sessions := s.sessions ++ [⟨now, durationSeconds, wordsWritten, completed⟩] }

/-- Function `stopSession` from src/main.ts lines 533-568. The `completed`
argument is accepted and ignored, as in the source. -/
def stopSession (s : PluginState) (completed : Bool) : PluginState :=
  if s.sessionActive = false then s
  else
    let s1 := { s with sessionActive := false }
    let s2 := match s1.sessionInterval with
      | some id => { clearTimer s1 id with sessionInterval := none }
      | none => s1
    let s3 := match s2.idleWatchdogTimeout with
      | some id => { clearTimer s2 id with idleWatchdogTimeout := none }
      | none => s2
    let s4 := match s3.statusBarInterval with
      | some id => { clearTimer s3 id with statusBarInterval := none }
      | none => s3
    { s4 with
        activeFile := none, initialContent := [], initialWordCount := 0,
        wordCountGoal := none, lastActivityTime := 0 }

/-- Function `resetIdleWatchdog` from src/main.ts lines 339-361: clears any
pending idle timeout, stamps `lastActivityTime`, arms a fresh idle
timeout, and (via `startWarningInterval`) arms a fresh 50 ms warning
poll. Note that the warning poll's id is held only in a local variable of
the source closure, never in a plugin field. -/
def resetIdleWatchdog (s : PluginState) (now : Nat) : PluginState :=
  let s1 := match s.idleWatchdogTimeout with
    | some id => { clearTimer s id with idleWatchdogTimeout := none }
    | none => s
  let s2 := { s1 with lastActivityTime := now }
  let p := setTimer s2 .idleTimeout
  let s3 := { p.1 with idleWatchdogTimeout := some p.2 }
  (setTimer s3 .warningPoll).1

/-- Function `beginSession` from src/main.ts lines 282-337: activates the session
on `file` whose editor currently holds `content`, fixes the goal from the
config (a word-count goal sets `sessionDurationMs := 0`; otherwise
`(config.durationMinutes || 5) * 60 * 1000`), arms the 1-second
goal-check interval, and arms the idle watchdog. -/
def beginSession (s : PluginState) (file : Nat) (content : Str)
    (config : SessionConfig) (now : Nat) : PluginState :=
  let s1 := { s with
      sessionActive := true, activeFile := some file,
      initialContent := content,
      initialWordCount := countWords content,
      sessionStartTime := now }
  let s2 := match config.wordCountGoal with
    | some g => { s1 with wordCountGoal := some g, sessionDurationMs := 0 }
    | none =>
      let m := match config.durationMinutes with
        | some m => m
        | none => 0
      { s1 with wordCountGoal := none,
                sessionDurationMs := (if m = 0 then 5 else m) * 60 * 1000 }
  let p := setTimer s2 .goalCheck
  let s3 := { p.1 with sessionInterval := some p.2 }
  resetIdleWatchdog s3 now

/-- Function `completeSession` from src/main.ts lines 501-531: no-op when no
session is active; if the foreground view (`view`) does not show the
monitored file, stops the session without recording; otherwise records a
completed session whose `wordsWritten` is the word count of the
foreground editor's full content, and stops the session. Writes nothing
to any editor. -/
def completeSession (s : PluginState) (view : Option View) (now : Nat) :
    PluginState :=
  if s.sessionActive = false then s
  else
    match view with
    | none => stopSession s false
    | some v =>
      if some v.file ≠ s.activeFile then stopSession s false
      else
        let wordsWritten := countWords v.content
        let durationSeconds := (now - s.sessionStartTime) / 1000
        let s1 := recordSession s wordsWritten durationSeconds true now
        stopSession s1 true

/-- The goal-check interval handler (the closure armed in `beginSession`,
src/main.ts lines 298-316): `editorContent` is the captured session
editor's current value; `view` is the foreground view consulted by
`completeSession`. In word-count mode it completes when
`currentWords - initialWordCount >= wordCountGoal` (JavaScript number
subtraction, hence `Int`); in duration mode when
`Date.now() - sessionStartTime >= sessionDurationMs`. The status-bar
update of the non-completing branch touches no session state. -/
def sessionIntervalTick (s : PluginState) (editorContent : Str)
    (view : Option View) (now : Nat) : PluginState :=
  match s.wordCountGoal with
  | some goal =>
    if (countWords editorContent : Int) - (s.initialWordCount : Int) ≥ (goal : Int) then
      completeSession s view now
    else s
  | none =>
    if (now : Int) - (s.sessionStartTime : Int) ≥ (s.sessionDurationMs : Int) then
      completeSession s view now
    else s

/-- `triggerPenalty` from src/main.ts lines 446-499: fired by the idle
timeout. Returns the new state and the trace of editor writes. If no
session is active, or the foreground view does not show the monitored
file, it returns with no state change and no write. Otherwise it applies
the penalty to the foreground content, writes the reduced content,
records a non-completed session whose `wordsWritten` is the word count of
the full pre-penalty content, stops the session, and — in practice mode,
when the user accepts the recovery prompt (`recover`) — writes back the
saved initial content. -/
def triggerPenalty (s : PluginState) (settings : Settings)
    (view : Option View) (now : Nat) (recover : Bool) :
    PluginState × List Str :=
  if s.sessionActive = false then (s, [])
  else
    match view with
    | none => (s, [])
    | some v =>
      if some v.file ≠ s.activeFile then (s, [])
      else
        let currentContent := v.content
        let wordsWritten := countWords currentContent
        let durationSeconds := (now - s.sessionStartTime) / 1000
        let savedInitialContent := s.initialContent
        let newContent := applyPenalty settings.penaltyType currentContent
        let s1 := recordSession s wordsWritten durationSeconds false now
        let s2 := stopSession s1 false
        if settings.practiceMode && recover then
          (s2, [newContent, savedInitialContent])
        else (s2, [newContent])

/-- The `active-leaf-change` handler from src/main.ts lines 123-144:
while a session is active, switching the foreground view to a markdown
file different from the monitored one stops the session (it performs no
editor write, hence the always-empty write trace). `leafView = none`
models a missing leaf, a non-markdown view, or a view without a file. -/
def onActiveLeafChange (s : PluginState) (leafView : Option View) :
    PluginState × List Str :=
  if s.sessionActive then
    match leafView with
    | some v =>
      match s.activeFile with
      | some f => if v.file ≠ f then (stopSession s false, []) else (s, [])
      | none => (s, [])
    | none => (s, [])
  else (s, [])

/-- The 50 ms warning-poll handler (the closure armed in
`startWarningInterval`, src/main.ts lines 372-400), restricted to its
timer bookkeeping: it clears its own interval (`timerId`) when the
session is no longer active or when the remaining idle time is ≤ 0;
otherwise it only repaints the overlay (no state change). -/
def warningTick (s : PluginState) (settings : Settings) (timerId : Nat)
    (now : Nat) : PluginState :=
  if s.sessionActive = false then clearTimer s timerId
  else
    let idleTime : Int := (now : Int) - (s.lastActivityTime : Int)
    let remaining : Int := (settings.idleTimeoutSeconds : Int) * 1000 - idleTime
    if remaining ≤ 0 then clearTimer s timerId
    else s

/-! Section: helper lemmas for the word counter. -/

/-- Whether the text starts with a non-whitespace character. -/
def headNonWs : Str → Bool
  | [] => false
  | c :: _ => !c.isWhitespace

theorem dropWhile_length_le (p : Char → Bool) (l : Str) :
    (l.dropWhile p).length ≤ l.length := by
  induction l with
  | nil => simp
  | cons c cs ih => by_cases h : p c <;> simp [List.dropWhile, h] <;> omega

theorem splitWs_ne_nil : ∀ s : Str, splitWs s ≠ [] := by
  intro s
  induction s with
  | nil => simp [splitWs]
  | cons c cs ih =>
    cases cs with
    | nil => simp only [splitWs]; split <;> simp
    | cons d cs' =>
      simp only [splitWs]
      split
      · split
        · exact ih
        · simp
      · split
        · simp
        · simp

theorem countRunsAux_true_split (s : Str) :
    countRunsAux true s = (if headNonWs s then 1 else 0) + countRunsAux false s := by
  cases s with
  | nil => simp [countRunsAux, headNonWs]
  | cons c cs =>
    by_cases hc : c.isWhitespace <;> simp [countRunsAux, headNonWs, hc]

theorem splitWs_head_iff :
    ∀ (s : Str) (h : Str) (t : List Str), splitWs s = h :: t →
      (0 < h.length ↔ headNonWs s = true) := by
  intro s
  induction s with
  | nil =>
    intro h t he
    simp only [splitWs] at he
    cases he
    simp [headNonWs]
  | cons c cs ih =>
    cases cs with
    | nil =>
      intro h t he
      by_cases hc : c.isWhitespace <;> simp [splitWs, hc] at he <;>
        rcases he with ⟨he1, he2⟩ <;> subst he1 <;> simp [headNonWs, hc]
    | cons d cs' =>
      intro h t he
      simp only [splitWs] at he
      by_cases hc : c.isWhitespace
      · rw [if_pos hc] at he
        by_cases hd : d.isWhitespace
        · rw [if_pos hd] at he
          have hthis := ih h t he
          rw [show headNonWs (d :: cs') = false by simp [headNonWs, hd]] at hthis
          rw [show headNonWs (c :: d :: cs') = false by simp [headNonWs, hc]]
          simpa using hthis
        · rw [if_neg hd] at he
          cases he
          simp [headNonWs, hc]
      · rw [if_neg hc] at he
        rcases hP : splitWs (d :: cs') with _ | ⟨l, ls⟩
        · exact absurd hP (splitWs_ne_nil _)
        · rw [hP] at he
          cases he
          simp [headNonWs, hc]

theorem filter_count_splitWs :
    ∀ s : Str,
      ((splitWs s).filter (fun w => w.length > 0)).length = countRunsAux true s := by
  intro s
  induction s with
  | nil => simp [splitWs, countRunsAux]
  | cons c cs ih =>
    cases cs with
    | nil =>
      by_cases hc : c.isWhitespace <;> simp [splitWs, hc, countRunsAux]
    | cons d cs' =>
      simp only [splitWs]
      by_cases hc : c.isWhitespace
      · rw [if_pos hc]
        by_cases hd : d.isWhitespace
        · rw [if_pos hd, ih]
          simp [countRunsAux, hc]
        · rw [if_neg hd]
          simp only [List.filter_cons]
          simp [ih, countRunsAux, hc]
      · rw [if_neg hc]
        rcases hP : splitWs (d :: cs') with _ | ⟨l, ls⟩
        · exact absurd hP (splitWs_ne_nil _)
        · rw [hP] at ih
          rw [countRunsAux_true_split] at ih
          have hiff := splitWs_head_iff (d :: cs') l ls hP
          have hgoal : countRunsAux true (c :: d :: cs')
              = 1 + countRunsAux false (d :: cs') := by
            rw [show countRunsAux true (c :: d :: cs')
                = (if c.isWhitespace then countRunsAux true (d :: cs')
                   else (if true then 1 else 0) + countRunsAux false (d :: cs'))
              from rfl]
            simp [hc]
          rw [hgoal]
          rw [List.filter_cons] at ih ⊢
          by_cases hl : 0 < l.length
          · have hh : headNonWs (d :: cs') = true := hiff.mp hl
            rw [hh] at ih
            simp [hl] at ih ⊢
            omega
          · have hh : ¬ headNonWs (d :: cs') = true := fun h => hl (hiff.mpr h)
            simp only [Bool.not_eq_true] at hh
            rw [hh] at ih
            simp [hl] at ih
            simp at ih ⊢
            omega

theorem countRunsAux_all_ws :
    ∀ (l : Str), (∀ c ∈ l, c.isWhitespace) → ∀ b, countRunsAux b l = 0 := by
  intro l
  induction l with
  | nil => intro _ b; simp [countRunsAux]
  | cons c cs ih =>
    intro h b
    have hc : c.isWhitespace := h c (by simp)
    simp [countRunsAux, hc]
    exact ih (fun x hx => h x (by simp [hx])) true

theorem countRunsAux_append_ws :
    ∀ (s post : Str), (∀ c ∈ post, c.isWhitespace) → ∀ b,
      countRunsAux b (s ++ post) = countRunsAux b s := by
  intro s post hpost
  induction s with
  | nil => intro b; simp [countRunsAux, countRunsAux_all_ws post hpost b]
  | cons c cs ih =>
    intro b
    by_cases hc : c.isWhitespace <;> simp [countRunsAux, hc, ih]

theorem countRunsAux_ws_prefix :
    ∀ (pre : Str), (∀ c ∈ pre, c.isWhitespace) → ∀ s,
      countRunsAux true (pre ++ s) = countRunsAux true s := by
  intro pre
  induction pre with
  | nil => intro _ s; simp
  | cons c cs ih =>
    intro h s
    have hc : c.isWhitespace := h c (by simp)
    simp [countRunsAux, hc]
    exact ih (fun x hx => h x (by simp [hx])) s

theorem countRunsAux_dropWhile (s : Str) :
    countRunsAux true (s.dropWhile Char.isWhitespace) = countRunsAux true s := by
  induction s with
  | nil => simp
  | cons c cs ih =>
    by_cases hc : c.isWhitespace <;> simp [List.dropWhile, hc, countRunsAux, ih]

theorem trimEnd_decomp (s : Str) :
    ∃ post, s = trimEnd s ++ post ∧ ∀ c ∈ post, c.isWhitespace := by
  refine ⟨(s.reverse.takeWhile Char.isWhitespace).reverse, ?_, ?_⟩
  · unfold trimEnd
    rw [← List.reverse_append, List.takeWhile_append_dropWhile, List.reverse_reverse]
  · intro c hc
    rw [List.mem_reverse] at hc
    exact List.mem_takeWhile_imp hc

theorem countRunsAux_trimEnd (s : Str) :
    countRunsAux true (trimEnd s) = countRunsAux true s := by
  obtain ⟨post, hs, hws⟩ := trimEnd_decomp s
  conv_rhs => rw [hs]
  rw [countRunsAux_append_ws _ post hws true]

theorem countWords_eq_runs (s : Str) : countWords s = maximalNonWsRuns s := by
  rw [countWords, maximalNonWsRuns, filter_count_splitWs, trimBoth,
    countRunsAux_trimEnd, trimStart, countRunsAux_dropWhile]

/-! Section: helper lemmas for the penalty engine. -/

theorem trimEnd_length_le (s : Str) : (trimEnd s).length ≤ s.length := by
  unfold trimEnd
  rw [List.length_reverse]
  calc (s.reverse.dropWhile Char.isWhitespace).length
      ≤ s.reverse.length := dropWhile_length_le _ _
    _ = s.length := List.length_reverse s.reverse ▸ by simp

theorem dropLastSentenceMatch_length {s r : Str}
    (h : dropLastSentenceMatch s = some r) : r.length + 1 ≤ s.length := by
  unfold dropLastSentenceMatch at h
  rcases hd : s.reverse.dropWhile (fun c => !isTerminal c) with _ | ⟨c, rest⟩
  · rw [hd] at h; cases h
  · rw [hd] at h
    cases h
    have h1 : rest.length + 1 = (s.reverse.dropWhile (fun c => !isTerminal c)).length := by
      rw [hd]; simp
    have h2 : (s.reverse.dropWhile (fun c => !isTerminal c)).length ≤ s.length := by
      calc (s.reverse.dropWhile (fun c => !isTerminal c)).length
          ≤ s.reverse.length := dropWhile_length_le _ _
        _ = s.length := by simp
    simp only [List.length_reverse]
    omega

theorem splitOnChar_ne_nil (sep : Char) : ∀ s : Str, splitOnChar sep s ≠ [] := by
  intro s
  induction s with
  | nil => simp [splitOnChar]
  | cons c cs ih =>
    simp only [splitOnChar]
    split
    · simp
    · split
      · simp
      · simp

theorem joinSep_splitOnChar (sep : Char) :
    ∀ s : Str, joinSep [sep] (splitOnChar sep s) = s := by
  intro s
  induction s with
  | nil => simp [splitOnChar, joinSep]
  | cons c cs ih =>
    simp only [splitOnChar]
    by_cases hc : c = sep
    · rw [if_pos (by simp [hc])]
      rcases hP : splitOnChar sep cs with _ | ⟨l, ls⟩
      · exact absurd hP (splitOnChar_ne_nil sep cs)
      · rw [hP] at ih
        rw [show joinSep [sep] ([] :: l :: ls) = [] ++ [sep] ++ joinSep [sep] (l :: ls)
          from rfl]
        simp [ih, hc]
    · rw [if_neg (by simp [hc])]
      rcases hP : splitOnChar sep cs with _ | ⟨l, ls⟩
      · exact absurd hP (splitOnChar_ne_nil sep cs)
      · rw [hP] at ih
        cases ls with
        | nil =>
          rw [show joinSep [sep] [c :: l] = c :: l from rfl]
          rw [show joinSep [sep] [l] = l from rfl] at ih
          rw [ih]
        | cons m ms =>
          rw [show joinSep [sep] ((c :: l) :: m :: ms)
              = (c :: l) ++ [sep] ++ joinSep [sep] (m :: ms) from rfl]
          rw [show joinSep [sep] (l :: m :: ms)
              = l ++ [sep] ++ joinSep [sep] (m :: ms) from rfl] at ih
          simp only [List.cons_append, List.append_assoc] at ih ⊢
          rw [ih]

theorem joinSep_dropLast_le (sep : Str) :
    ∀ ls : List Str, 2 ≤ ls.length →
      (joinSep sep ls.dropLast).length + sep.length ≤ (joinSep sep ls).length := by
  intro ls
  induction ls with
  | nil => intro h; simp at h
  | cons a rest ih =>
    intro h
    cases rest with
    | nil => simp at h
    | cons b t =>
      cases t with
      | nil =>
        rw [show (a :: [b]).dropLast = [a] from rfl]
        rw [show joinSep sep [a] = a from rfl]
        rw [show joinSep sep [a, b] = a ++ sep ++ joinSep sep [b] from rfl]
        rw [show joinSep sep [b] = b from rfl]
        simp
      | cons d t' =>
        have hih := ih (by simp)
        rw [show (a :: b :: d :: t').dropLast = a :: (b :: d :: t').dropLast from rfl]
        rw [show (b :: d :: t').dropLast = b :: (d :: t').dropLast from rfl] at hih ⊢
        rw [show joinSep sep (a :: b :: d :: t')
            = a ++ sep ++ joinSep sep (b :: d :: t') from rfl]
        rw [show joinSep sep (a :: b :: (d :: t').dropLast)
            = a ++ sep ++ joinSep sep (b :: (d :: t').dropLast) from rfl]
        simp only [List.length_append]
        omega

theorem splitParasAux_ne_nil : ∀ (s : Str) (flag : Bool), splitParasAux flag s ≠ [] := by
  intro s
  induction s with
  | nil => intro flag; cases flag <;> simp [splitParasAux]
  | cons c cs ih =>
    intro flag
    cases flag with
    | true =>
      simp only [splitParasAux]
      split
      · exact ih true
      · split
        · simp
        · simp
    | false =>
      simp only [splitParasAux]
      split
      · simp
      · split
        · simp
        · simp

theorem splitParas_dropLast_le :
    ∀ (n : Nat) (flag : Bool) (s : Str), s.length ≤ n →
      2 ≤ (splitParasAux flag s).length →
      (joinSep ['\n', '\n'] (splitParasAux flag s).dropLast).length + 2 ≤ s.length := by
  intro n
  induction n with
  | zero =>
    intro flag s hs h2
    have : s = [] := by cases s <;> simp_all
    subst this
    cases flag <;> simp [splitParasAux] at h2
  | succ n ih =>
    intro flag s hs h2
    cases s with
    | nil => cases flag <;> simp [splitParasAux] at h2
    | cons c cs =>
      cases flag with
      | true =>
        by_cases hc : c = '\n'
        · have e : splitParasAux true (c :: cs) = splitParasAux true cs := by
            simp [splitParasAux, hc]
          rw [e] at h2 ⊢
          have hb : cs.length ≤ n := by simp at hs; omega
          have := ih true cs hb h2
          simp only [List.length_cons]
          omega
        · rcases hP : splitParasAux false cs with _ | ⟨l, ls⟩
          · exact absurd hP (splitParasAux_ne_nil cs false)
          · have e : splitParasAux true (c :: cs) = (c :: l) :: ls := by
              simp only [splitParasAux]
              rw [if_neg (by simp [hc]), hP]
            rw [e] at h2 ⊢
            cases ls with
            | nil => simp at h2
            | cons m ms =>
              have hb : cs.length ≤ n := by simp at hs; omega
              have hih := ih false cs hb (by rw [hP]; simp)
              rw [hP] at hih
              rw [show (l :: m :: ms).dropLast = l :: (m :: ms).dropLast from rfl] at hih
              rw [show ((c :: l) :: m :: ms).dropLast
                  = (c :: l) :: (m :: ms).dropLast from rfl]
              rcases hms : (m :: ms).dropLast with _ | ⟨q, qs⟩
              · rw [hms] at hih
                rw [show joinSep ['\n', '\n'] [l] = l from rfl] at hih
                rw [show joinSep ['\n', '\n'] [c :: l] = c :: l from rfl]
                simp only [List.length_cons]
                omega
              · rw [hms] at hih
                rw [show joinSep ['\n', '\n'] (l :: q :: qs)
                    = l ++ ['\n', '\n'] ++ joinSep ['\n', '\n'] (q :: qs) from rfl] at hih
                rw [show joinSep ['\n', '\n'] ((c :: l) :: q :: qs)
                    = (c :: l) ++ ['\n', '\n'] ++ joinSep ['\n', '\n'] (q :: qs) from rfl]
                simp only [List.length_append, List.length_cons] at hih ⊢
                omega
      | false =>
        by_cases hsep : c = '\n' ∧ cs.head? = some '\n'
        · obtain ⟨hc, hh⟩ := hsep
          rcases cs with _ | ⟨d, cs'⟩
          · simp at hh
          · have hd : d = '\n' := by simpa using hh
            subst hc; subst hd
            have e : splitParasAux false ('\n' :: '\n' :: cs')
                = [] :: splitParasAux true cs' := by
              rw [show splitParasAux false ('\n' :: '\n' :: cs')
                  = [] :: splitParasAux true ('\n' :: cs') by
                simp only [splitParasAux]; rw [if_pos (by simp)]]
              rw [show splitParasAux true ('\n' :: cs')
                  = splitParasAux true cs' by simp [splitParasAux]]
            rw [e] at h2 ⊢
            rcases hP : splitParasAux true cs' with _ | ⟨p, t⟩
            · exact absurd hP (splitParasAux_ne_nil cs' true)
            · cases t with
              | nil =>
                rw [show ([] :: [p]).dropLast = [([] : Str)] from rfl]
                rw [show joinSep ['\n', '\n'] [([] : Str)] = [] from rfl]
                simp
              | cons d ds =>
                have hb : cs'.length ≤ n := by simp at hs; omega
                have hih := ih true cs' hb (by rw [hP]; simp)
                rw [hP] at hih
                rw [show (p :: d :: ds).dropLast = p :: (d :: ds).dropLast from rfl] at hih
                rw [show (([] : Str) :: p :: d :: ds).dropLast
                    = [] :: (p :: d :: ds).dropLast from rfl]
                rw [show (p :: d :: ds).dropLast = p :: (d :: ds).dropLast from rfl]
                rw [show joinSep ['\n', '\n'] (([] : Str) :: p :: (d :: ds).dropLast)
                    = [] ++ ['\n', '\n'] ++ joinSep ['\n', '\n'] (p :: (d :: ds).dropLast)
                  from rfl]
                simp only [List.length_append, List.length_cons, List.nil_append,
                  List.length_nil] at hih ⊢
                omega
        · rcases hP : splitParasAux false cs with _ | ⟨l, ls⟩
          · exact absurd hP (splitParasAux_ne_nil cs false)
          · have e : splitParasAux false (c :: cs) = (c :: l) :: ls := by
              simp only [splitParasAux]
              rw [if_neg (by
                simp only [Bool.and_eq_true, beq_iff_eq]
                intro hcontra
                exact hsep ⟨hcontra.1, by simpa using hcontra.2⟩), hP]
            rw [e] at h2 ⊢
            cases ls with
            | nil => simp at h2
            | cons m ms =>
              have hb : cs.length ≤ n := by simp at hs; omega
              have hih := ih false cs hb (by rw [hP]; simp)
              rw [hP] at hih
              rw [show (l :: m :: ms).dropLast = l :: (m :: ms).dropLast from rfl] at hih
              rw [show ((c :: l) :: m :: ms).dropLast
                  = (c :: l) :: (m :: ms).dropLast from rfl]
              rcases hms : (m :: ms).dropLast with _ | ⟨q, qs⟩
              · rw [hms] at hih
                rw [show joinSep ['\n', '\n'] [l] = l from rfl] at hih
                rw [show joinSep ['\n', '\n'] [c :: l] = c :: l from rfl]
                simp only [List.length_cons]
                omega
              · rw [hms] at hih
                rw [show joinSep ['\n', '\n'] (l :: q :: qs)
                    = l ++ ['\n', '\n'] ++ joinSep ['\n', '\n'] (q :: qs) from rfl] at hih
                rw [show joinSep ['\n', '\n'] ((c :: l) :: q :: qs)
                    = (c :: l) ++ ['\n', '\n'] ++ joinSep ['\n', '\n'] (q :: qs) from rfl]
                simp only [List.length_append, List.length_cons] at hih ⊢
                omega

/-! Section: helper lemmas for the session state machine. -/

theorem stopSession_sessions (s : PluginState) (b : Bool) :
    (stopSession s b).sessions = s.sessions := by
  rcases s with ⟨act, st, dur, goal, iwc, af, ic, si, iwt, sbi, lat, sess, pt, nid⟩
  cases act <;> rcases si with _ | i <;> rcases iwt with _ | j <;>
    rcases sbi with _ | k <;> rfl

theorem stopSession_not_active {s : PluginState} (b : Bool)
    (h : s.sessionActive = true) : (stopSession s b).sessionActive = false := by
  rcases s with ⟨act, st, dur, goal, iwc, af, ic, si, iwt, sbi, lat, sess, pt, nid⟩
  cases act
  · cases h
  · rcases si with _ | i <;> rcases iwt with _ | j <;> rcases sbi with _ | k <;> rfl

theorem recordSession_fields (s : PluginState) (w d : Nat) (c : Bool) (now : Nat) :
    (recordSession s w d c now).sessionActive = s.sessionActive
    ∧ (recordSession s w d c now).sessions
        = s.sessions ++ [⟨now, d, w, c⟩] := by
  constructor <;> rfl

theorem completeSession_not_active {s : PluginState} (view : Option View)
    (now : Nat) (h : s.sessionActive = true) :
    (completeSession s view now).sessionActive = false := by
  unfold completeSession
  rw [if_neg (by simp [h])]
  cases view with
  | none => exact stopSession_not_active false h
  | some v =>
    dsimp only
    by_cases hf : some v.file ≠ s.activeFile
    · rw [if_pos hf]; exact stopSession_not_active false h
    · rw [if_neg hf]
      exact stopSession_not_active true (by simpa [recordSession] using h)

theorem completeSession_sessions (s : PluginState) (view : Option View) (now : Nat) :
    (completeSession s view now).sessions = s.sessions ∨
    (s.sessionActive = true ∧ ∃ v, view = some v ∧ some v.file = s.activeFile ∧
      (completeSession s view now).sessions
        = s.sessions ++ [⟨now, (now - s.sessionStartTime) / 1000,
            countWords v.content, true⟩]) := by
  unfold completeSession
  by_cases h : s.sessionActive = false
  · rw [if_pos h]; left; rfl
  · rw [if_neg h]
    cases view with
    | none => left; exact stopSession_sessions ..
    | some v =>
      dsimp only
      by_cases hf : some v.file ≠ s.activeFile
      · rw [if_pos hf]; left; exact stopSession_sessions ..
      · rw [if_neg hf]
        right
        refine ⟨by simpa using h, v, rfl, by simpa using hf, ?_⟩
        rw [stopSession_sessions]
        rfl

theorem stopSession_mem_pending {s : PluginState} (b : Bool)
    (h : s.sessionActive = true) (t : Timer) :
    t ∈ (stopSession s b).pendingTimers ↔
      (t ∈ s.pendingTimers ∧ s.sessionInterval ≠ some t.id
        ∧ s.idleWatchdogTimeout ≠ some t.id ∧ s.statusBarInterval ≠ some t.id) := by
  rcases s with ⟨act, st, dur, goal, iwc, af, ic, si, iwt, sbi, lat, sess, pt, nid⟩
  cases act
  · cases h
  · rcases si with _ | i <;> rcases iwt with _ | j <;> rcases sbi with _ | k <;>
      simp [stopSession, clearTimer, List.mem_filter, ne_comm] <;> tauto

theorem completeSession_inactive {s : PluginState} (view : Option View)
    (now : Nat) (h : s.sessionActive = false) : completeSession s view now = s := by
  unfold completeSession
  rw [if_pos h]

theorem sessionIntervalTick_inactive {s : PluginState} (ec : Str)
    (view : Option View) (now : Nat) (h : s.sessionActive = false) :
    sessionIntervalTick s ec view now = s := by
  unfold sessionIntervalTick
  rcases hg : s.wordCountGoal with _ | g <;> dsimp only <;> split <;>
    first
      | rfl
      | exact completeSession_inactive view now h

/-! Section: claim theorems. -/

/-- C4: In DeleteLastSentence mode the spec claims
`applyPenalty("Hello. World.", "sentence") == "Hello."` (strip the whole
final sentence). The code's regex `/[.!?][^.!?]*$/` matches from the
*last* terminal mark, so on this input it strips only the final period:
the result is `"Hello. World"`, not `"Hello."`. -/
theorem sentencePenalty_divergence :
    applyPenalty .sentence ("Hello. World.".toList) = "Hello. World".toList
    ∧ applyPenalty .sentence ("Hello. World.".toList) ≠ "Hello.".toList := by
  decide

/-- C7: The warning intensity is exactly `0` whenever the remaining idle
time exceeds `warningThresholdSeconds` (scaled: `threshold`), and within
the threshold it equals `1 - (1 - progress)^3` with
`progress = 1 - remaining/threshold`, which increases strictly
monotonically from `0` (at `remaining = threshold`) toward `1` (value at
`remaining = 0`) as the remaining time shrinks, staying within `[0, 1]`. -/
theorem warningIntensity_spec :
    ∀ T : ℚ, 0 < T →
      (∀ r : ℚ, T < r → warningIntensity T r = 0)
      ∧ warningIntensity T T = 0
      ∧ warningIntensity T 0 = 1
      ∧ (∀ r1 r2 : ℚ, 0 ≤ r1 → r1 < r2 → r2 ≤ T →
          warningIntensity T r2 < warningIntensity T r1)
      ∧ (∀ r : ℚ, 0 ≤ r → r ≤ T →
          0 ≤ warningIntensity T r ∧ warningIntensity T r ≤ 1) := by
  intro T hT
  have hT0 : T ≠ 0 := ne_of_gt hT
  have key : ∀ r : ℚ, r ≤ T → warningIntensity T r = 1 - (r / T) ^ 3 := by
    intro r hr
    unfold warningIntensity
    rw [if_pos hr]
    dsimp only
    ring
  refine ⟨?_, ?_, ?_, ?_, ?_⟩
  · intro r hr
    unfold warningIntensity
    rw [if_neg (not_le.mpr hr)]
  · rw [key T le_rfl, div_self hT0]
    norm_num
  · rw [key 0 (le_of_lt hT), zero_div]
    norm_num
  · intro r1 r2 h1 h12 h2T
    rw [key r1 (by linarith), key r2 h2T]
    have hd : r1 / T < r2 / T := div_lt_div_of_pos_right h12 hT
    have hp : (r1 / T) ^ 3 < (r2 / T) ^ 3 :=
      pow_lt_pow_left₀ hd (by positivity) (by norm_num)
    linarith
  · intro r h0 hrT
    rw [key r hrT]
    constructor
    · have : (r / T) ^ 3 ≤ 1 :=
        pow_le_one₀ (by positivity) (by rw [div_le_one hT]; exact hrT)
      linarith
    · have : 0 ≤ (r / T) ^ 3 := by positivity
      linarith

/-- C7 witness: at `threshold = 2`, intensity is 0 beyond the threshold
and strictly increases as remaining shrinks from 1 to 0. -/
theorem warningIntensity_spec_witness :
    warningIntensity 2 3 = 0 ∧ warningIntensity 2 1 < warningIntensity 2 0 := by
  have h := warningIntensity_spec 2 (by norm_num)
  exact ⟨h.1 3 (by norm_num),
    h.2.2.2.1 0 1 (by norm_num) (by norm_num) (by norm_num)⟩

/-- C8: `countWords` returns the number of maximal non-whitespace runs;
empty text yields 0, `"  a   b  "` yields 2, and the count is invariant
under adding (hence also removing) leading and trailing whitespace. -/
theorem countWords_spec :
    (∀ s : Str, countWords s = maximalNonWsRuns s)
    ∧ countWords "".toList = 0
    ∧ countWords "  a   b  ".toList = 2
    ∧ (∀ pre mid post : Str,
        (∀ c ∈ pre, c.isWhitespace) → (∀ c ∈ post, c.isWhitespace) →
        countWords (pre ++ mid ++ post) = countWords mid) := by
  refine ⟨countWords_eq_runs, by decide, by decide, ?_⟩
  intro pre mid post hpre hpost
  rw [countWords_eq_runs, countWords_eq_runs]
  unfold maximalNonWsRuns
  rw [List.append_assoc, countRunsAux_ws_prefix pre hpre,
    countRunsAux_append_ws mid post hpost true]

/-- C8 witness: whitespace-padding invariance at a concrete input. -/
theorem countWords_spec_witness :
    countWords (" ".toList ++ "a b".toList ++ "  ".toList) = countWords "a b".toList :=
  countWords_spec.2.2.2 " ".toList "a b".toList "  ".toList (by decide) (by decide)

/-- C9: for every content and every penalty mode, `applyPenalty` never
lengthens the content, and strictly shortens every non-empty content. -/
theorem applyPenalty_shrinks :
    ∀ (mode : PenaltyType) (content : Str),
      (applyPenalty mode content).length ≤ content.length
      ∧ (content ≠ [] → (applyPenalty mode content).length < content.length) := by
  intro mode content
  have hpos : content ≠ [] → 0 < content.length := fun h => List.length_pos.mpr h
  cases mode with
  | all =>
    refine ⟨by simp [applyPenalty], fun h => ?_⟩
    simpa [applyPenalty] using hpos h
  | sentence =>
    unfold applyPenalty
    dsimp only
    rcases hm : dropLastSentenceMatch (trimEnd content) with _ | r
    · dsimp only
      by_cases hl : (splitOnChar '\n' (trimEnd content)).length > 1
      · rw [if_pos hl]
        have h2 : 2 ≤ (splitOnChar '\n' (trimEnd content)).length := hl
        have hjoin := joinSep_dropLast_le ['\n'] _ h2
        rw [joinSep_splitOnChar] at hjoin
        simp only [List.length_cons, List.length_nil] at hjoin
        have htrim := trimEnd_length_le content
        exact ⟨by omega, fun _ => by omega⟩
      · rw [if_neg hl]
        exact ⟨Nat.zero_le _, fun h => by simpa using hpos h⟩
    · dsimp only
      have hlen := dropLastSentenceMatch_length hm
      have htrim := trimEnd_length_le content
      exact ⟨by omega, fun _ => by omega⟩
  | paragraph =>
    unfold applyPenalty
    dsimp only
    by_cases hl : (splitParas content).length > 1
    · rw [if_pos hl]
      have h2 : 2 ≤ (splitParasAux false content).length := by
        simpa [splitParas] using hl
      have hsp := splitParas_dropLast_le content.length false content le_rfl h2
      unfold splitParas
      exact ⟨by omega, fun _ => by omega⟩
    · rw [if_neg hl]
      exact ⟨Nat.zero_le _, fun h => by simpa using hpos h⟩

/-- C9 witness: sentence mode strictly shortens a concrete non-empty
content. -/
theorem applyPenalty_shrinks_witness :
    (applyPenalty .sentence ("ab".toList)).length < ("ab".toList).length :=
  (applyPenalty_shrinks .sentence ("ab".toList)).2 (by decide)

/-- C6: a goal-check tick on an inactive session is a no-op (so the
completion transition cannot fire twice), and whenever a tick appends a
session record, the session leaves Active, the record is a completed one,
and the mode's goal condition held: in word-count mode
`currentWords - initialWordCount ≥ wordCountGoal`, in duration mode
`now - sessionStartTime ≥ sessionDurationMs` — completion never fires
early. -/
theorem goalCompletion_exact :
    (∀ (s : PluginState) (ec : Str) (view : Option View) (now : Nat),
        s.sessionActive = false → sessionIntervalTick s ec view now = s)
    ∧ (∀ (s : PluginState) (ec : Str) (view : Option View) (now : Nat)
        (r : SessionRecord),
        (sessionIntervalTick s ec view now).sessions = s.sessions ++ [r] →
          (sessionIntervalTick s ec view now).sessionActive = false
          ∧ r.completed = true
          ∧ (∀ g, s.wordCountGoal = some g →
              (countWords ec : Int) - (s.initialWordCount : Int) ≥ (g : Int))
          ∧ (s.wordCountGoal = none →
              (now : Int) - (s.sessionStartTime : Int) ≥ (s.sessionDurationMs : Int))) := by
  constructor
  · intro s ec view now h
    exact sessionIntervalTick_inactive ec view now h
  · intro s ec view now r hr
    by_cases hact : s.sessionActive = true
    · unfold sessionIntervalTick at hr ⊢
      rcases hg : s.wordCountGoal with _ | g
      · rw [hg] at hr
        dsimp only at hr ⊢
        by_cases hc :
            (now : Int) - (s.sessionStartTime : Int) ≥ (s.sessionDurationMs : Int)
        · rw [if_pos hc] at hr ⊢
          rcases completeSession_sessions s view now with hcs | ⟨_, v, hv, hvf, hcs⟩
          · rw [hcs] at hr
            exact absurd hr (by simp)
          · rw [hcs] at hr
            simp only [List.append_cancel_left_eq, List.cons.injEq, and_true] at hr
            refine ⟨completeSession_not_active view now hact, ?_, ?_, fun _ => hc⟩
            · rw [← hr]
            · intro g hg'
              simp at hg'
        · rw [if_neg hc] at hr
          exact absurd hr (by simp)
      · rw [hg] at hr
        dsimp only at hr ⊢
        by_cases hc :
            (countWords ec : Int) - (s.initialWordCount : Int) ≥ (g : Int)
        · rw [if_pos hc] at hr ⊢
          rcases completeSession_sessions s view now with hcs | ⟨_, v, hv, hvf, hcs⟩
          · rw [hcs] at hr
            exact absurd hr (by simp)
          · rw [hcs] at hr
            simp only [List.append_cancel_left_eq, List.cons.injEq, and_true] at hr
            refine ⟨completeSession_not_active view now hact, ?_, ?_, ?_⟩
            · rw [← hr]
            · intro g' hg'
              simp only [Option.some.injEq] at hg'
              subst hg'
              exact hc
            · intro hg'
              simp at hg'
        · rw [if_neg hc] at hr
          exact absurd hr (by simp)
    · have h0 : s.sessionActive = false := by
        cases hb : s.sessionActive
        · rfl
        · exact absurd hb hact
      rw [sessionIntervalTick_inactive ec view now h0] at hr
      exact absurd hr (by simp)

/-- C6 witness: a concrete word-count session whose tick appends a
completed record, with the goal condition discharged. -/
theorem goalCompletion_exact_witness :
    (sessionIntervalTick (beginSession initialState 1 [] ⟨none, some 1⟩ 0)
        ("hi".toList) (some ⟨1, "hi".toList⟩) 2500).sessionActive = false
    ∧ (countWords ("hi".toList) : Int)
        - ((beginSession initialState 1 [] ⟨none, some 1⟩ 0).initialWordCount : Int)
        ≥ ((1 : Nat) : Int) := by
  have h := goalCompletion_exact.2 (beginSession initialState 1 [] ⟨none, some 1⟩ 0)
    ("hi".toList) (some ⟨1, "hi".toList⟩) 2500 ⟨2500, 2, 1, true⟩ (by decide)
  exact ⟨h.1, h.2.2.1 1 (by decide)⟩

/-- C10: a session begun with a word-count goal stores `sessionDurationMs
= 0` and keeps the goal, and — for any active word-count-goal session —
a goal-check tick leaves Active exactly when the word condition
`currentWords - initialWordCount ≥ goal` holds, whatever the clock value
`now` is: elapsed duration never ends a word-count session. -/
theorem wordGoal_noTimeLimit :
    (∀ (s : PluginState) (file : Nat) (content : Str) (config : SessionConfig)
        (now g : Nat), config.wordCountGoal = some g →
        (beginSession s file content config now).sessionDurationMs = 0
        ∧ (beginSession s file content config now).wordCountGoal = some g
        ∧ (beginSession s file content config now).sessionActive = true)
    ∧ (∀ (s : PluginState) (ec : Str) (view : Option View) (now g : Nat),
        s.sessionActive = true → s.wordCountGoal = some g →
        ((sessionIntervalTick s ec view now).sessionActive = false
          ↔ (countWords ec : Int) - (s.initialWordCount : Int) ≥ (g : Int))) := by
  constructor
  · intro s file content config now g hg
    rcases config with ⟨dm, wg⟩
    dsimp only at hg
    subst hg
    rcases s with ⟨act, st, dur, goal, iwc, af, ic, si, iwt, sbi, lat, sess, pt, nid⟩
    rcases iwt with _ | j <;> exact ⟨rfl, rfl, rfl⟩
  · intro s ec view now g hact hg
    unfold sessionIntervalTick
    rw [hg]
    dsimp only
    by_cases hc : (countWords ec : Int) - (s.initialWordCount : Int) ≥ (g : Int)
    · rw [if_pos hc]
      simp [completeSession_not_active view now hact, hc]
    · rw [if_neg hc]
      simp [hact, hc]

/-- C10 witness: concrete word-goal session: duration is stored as 0, and
a tick at a huge clock value still completes exactly by the word
condition. -/
theorem wordGoal_noTimeLimit_witness :
    (beginSession initialState 1 "x".toList ⟨some 7, some 10⟩ 0).sessionDurationMs = 0
    ∧ ((sessionIntervalTick (beginSession initialState 1 [] ⟨none, some 1⟩ 0)
          ("hi one".toList) (some ⟨1, "hi one".toList⟩) 999999999).sessionActive = false
        ↔ (countWords ("hi one".toList) : Int)
            - ((beginSession initialState 1 [] ⟨none, some 1⟩ 0).initialWordCount : Int)
            ≥ ((1 : Nat) : Int)) := by
  refine ⟨(wordGoal_noTimeLimit.1 initialState 1 "x".toList ⟨some 7, some 10⟩ 0 10 rfl).1, ?_⟩
  exact wordGoal_noTimeLimit.2 (beginSession initialState 1 [] ⟨none, some 1⟩ 0)
    ("hi one".toList) (some ⟨1, "hi one".toList⟩) 999999999 1 (by decide) (by decide)

/-- C1 counterexample: a session starts on a document holding 2 words
(`initialWordCount = 2`) and the penalty fires with the document holding
3 words. The emitted record's `wordsWritten` is 3 — the full final word
count — while the claimed formula `max (final - initial) 0` gives 1. -/
theorem recordedWords_counterexample :
    (triggerPenalty (beginSession initialState 1 "alpha beta".toList ⟨none, some 50⟩ 1000)
        ⟨5, 3, false, .all⟩ (some ⟨1, "alpha beta gamma".toList⟩) 3000 false).1.sessions
      = [⟨3000, 2, 3, false⟩]
    ∧ (beginSession initialState 1 "alpha beta".toList ⟨none, some 50⟩ 1000).initialWordCount = 2
    ∧ max ((countWords ("alpha beta gamma".toList) : Int)
        - ((beginSession initialState 1 "alpha beta".toList ⟨none, some 50⟩ 1000).initialWordCount : Int)) 0 = 1
    ∧ (3 : Nat) ≠ 1 := by
  decide

/-- C1 (amended): the record emitted at session end carries
`wordsWritten = countWords(finalContent)` — the total word count of the
document, a natural number hence ≥ 0 — with `initialWordCount` not
subtracted: `triggerPenalty` (penalty path) records it with
`completed = false` and `completeSession` (goal path) with
`completed = true`. -/
theorem recordedWords_total :
    (∀ (s : PluginState) (st : Settings) (v : View) (now : Nat) (rec : Bool),
        s.sessionActive = true → some v.file = s.activeFile →
        (triggerPenalty s st (some v) now rec).1.sessions
          = s.sessions ++ [⟨now, (now - s.sessionStartTime) / 1000,
              countWords v.content, false⟩])
    ∧ (∀ (s : PluginState) (v : View) (now : Nat),
        s.sessionActive = true → some v.file = s.activeFile →
        (completeSession s (some v) now).sessions
          = s.sessions ++ [⟨now, (now - s.sessionStartTime) / 1000,
              countWords v.content, true⟩]) := by
  constructor
  · intro s st v now rec hact hf
    unfold triggerPenalty
    rw [if_neg (by simp [hact])]
    dsimp only
    rw [if_neg (by simp [hf])]
    split <;> rw [stopSession_sessions] <;> rfl
  · intro s v now hact hf
    unfold completeSession
    rw [if_neg (by simp [hact])]
    dsimp only
    rw [if_neg (by simp [hf])]
    rw [stopSession_sessions]
    rfl

/-- C1 amended witness: the concrete penalty run of the counterexample,
with the record shown to carry the total final word count. -/
theorem recordedWords_total_witness :
    (triggerPenalty (beginSession initialState 2 "one".toList ⟨none, some 9⟩ 500)
        ⟨5, 3, true, .paragraph⟩ (some ⟨2, "one two".toList⟩) 4500 true).1.sessions
      = [⟨4500, 4, 2, false⟩] := by
  have h := recordedWords_total.1
    (beginSession initialState 2 "one".toList ⟨none, some 9⟩ 500)
    ⟨5, 3, true, .paragraph⟩ ⟨2, "one two".toList⟩ 4500 true
    (by decide) (by decide)
  exact h.trans (by decide)

/-- C2 counterexample: an active session on file 1 with an empty history;
switching the foreground to file 2 ends the session but appends *no*
record to the history (the claim demands a `completed == false` record). -/
theorem docSwitch_counterexample :
    (beginSession initialState 1 "hi there".toList ⟨some 5, none⟩ 0).sessionActive = true
    ∧ (onActiveLeafChange (beginSession initialState 1 "hi there".toList ⟨some 5, none⟩ 0)
        (some ⟨2, "other".toList⟩)).1.sessionActive = false
    ∧ (onActiveLeafChange (beginSession initialState 1 "hi there".toList ⟨some 5, none⟩ 0)
        (some ⟨2, "other".toList⟩)).1.sessions = []
    ∧ (onActiveLeafChange (beginSession initialState 1 "hi there".toList ⟨some 5, none⟩ 0)
        (some ⟨2, "other".toList⟩)).2 = [] := by
  decide

/-- C2 (amended): when the active document changes to a different
document during an active session, the session aborts to Idle without
mutating any document content (the handler performs no editor write), but
no `SessionRecord` is appended: the history is left exactly as it was
(`stopSession` does not record). -/
theorem docSwitch_amended :
    ∀ (s : PluginState) (v : View) (f : Nat),
      s.sessionActive = true → s.activeFile = some f → v.file ≠ f →
      (onActiveLeafChange s (some v)).1.sessionActive = false
      ∧ (onActiveLeafChange s (some v)).1.sessions = s.sessions
      ∧ (onActiveLeafChange s (some v)).2 = [] := by
  intro s v f hact haf hne
  unfold onActiveLeafChange
  rw [if_pos hact]
  dsimp only
  rw [haf]
  dsimp only
  rw [if_pos hne]
  exact ⟨stopSession_not_active false hact, stopSession_sessions s false, rfl⟩

/-- C2 amended witness: the concrete document switch of the
counterexample, via the amended theorem. -/
theorem docSwitch_amended_witness :
    (onActiveLeafChange (beginSession initialState 1 "a b c".toList ⟨some 5, none⟩ 0)
        (some ⟨7, "x".toList⟩)).1.sessionActive = false
    ∧ (onActiveLeafChange (beginSession initialState 1 "a b c".toList ⟨some 5, none⟩ 0)
        (some ⟨7, "x".toList⟩)).1.sessions
      = (beginSession initialState 1 "a b c".toList ⟨some 5, none⟩ 0).sessions
    ∧ (onActiveLeafChange (beginSession initialState 1 "a b c".toList ⟨some 5, none⟩ 0)
        (some ⟨7, "x".toList⟩)).2 = [] :=
  docSwitch_amended (beginSession initialState 1 "a b c".toList ⟨some 5, none⟩ 0)
    ⟨7, "x".toList⟩ 1 (by decide) (by decide) (by decide)

/-- C3 counterexample: an active session on file 1; the idle penalty
fires while the foreground shows file 2. `triggerPenalty` returns with
the state unchanged — the session is *still Active*, no timers are torn
down, no record is appended, and nothing is written: it does not
finalize, contrary to the claim. -/
theorem penaltyUnreachable_counterexample :
    (triggerPenalty (beginSession initialState 1 "alpha beta".toList ⟨none, some 50⟩ 1000)
        ⟨5, 3, false, .sentence⟩ (some ⟨2, "x.".toList⟩) 9999 false).1.sessionActive = true
    ∧ triggerPenalty (beginSession initialState 1 "alpha beta".toList ⟨none, some 50⟩ 1000)
        ⟨5, 3, false, .sentence⟩ (some ⟨2, "x.".toList⟩) 9999 false
      = (beginSession initialState 1 "alpha beta".toList ⟨none, some 50⟩ 1000, []) := by
  decide

/-- C3 (amended): if at penalty-trigger time the monitored document is
not the foreground document (no foreground view, or a different file),
`triggerPenalty` attempts no content mutation *and does not finalize the
session*: it returns with the state completely unchanged, so the session
remains Active with no record appended. (At goal-check time,
`completeSession` does stop the session in this situation — still without
recording or mutating.) -/
theorem penaltyUnreachable_amended :
    ∀ (s : PluginState) (st : Settings) (view : Option View) (now : Nat)
      (rec : Bool),
      s.sessionActive = true →
      (match view with
       | none => True
       | some v => some v.file ≠ s.activeFile) →
      triggerPenalty s st view now rec = (s, []) := by
  intro s st view now rec hact hview
  unfold triggerPenalty
  rw [if_neg (by simp [hact])]
  cases view with
  | none => rfl
  | some v =>
    dsimp only
    rw [if_pos hview]

/-- C3 amended witness: the concrete unreachable-document penalty of the
counterexample, via the amended theorem. -/
theorem penaltyUnreachable_amended_witness :
    triggerPenalty (beginSession initialState 1 "w1 w2".toList ⟨none, some 3⟩ 100)
        ⟨5, 3, true, .all⟩ (some ⟨9, "other doc".toList⟩) 7777 true
      = (beginSession initialState 1 "w1 w2".toList ⟨none, some 3⟩ 100, []) :=
  penaltyUnreachable_amended (beginSession initialState 1 "w1 w2".toList ⟨none, some 3⟩ 100)
    ⟨5, 3, true, .all⟩ (some ⟨9, "other doc".toList⟩) 7777 true
    (by decide) (by decide)

/-- C5 counterexample: `beginSession` arms three timers (goal-check id 0,
idle-timeout id 1, warning-poll id 2). `stopSession` cancels the
goal-check interval and the idle timeout, but the 50 ms warning poll
(id 2) is *still pending* after `stopSession` returns — the claim that no
timer of a stopped session remains pending is false. -/
theorem stopTimers_counterexample :
    (beginSession initialState 1 "hello".toList ⟨some 5, none⟩ 0).pendingTimers
      = [⟨0, .goalCheck⟩, ⟨1, .idleTimeout⟩, ⟨2, .warningPoll⟩]
    ∧ (stopSession (beginSession initialState 1 "hello".toList ⟨some 5, none⟩ 0) true).pendingTimers
      = [⟨2, .warningPoll⟩]
    ∧ (stopSession (beginSession initialState 1 "hello".toList ⟨some 5, none⟩ 0) true).pendingTimers
      ≠ [] := by
  decide

/-- C5 (amended): stopping an active session synchronously cancels the
goal-check interval, the idle-timeout, and the status-bar interval (every
pending timer whose id is held in those fields is gone when `stopSession`
returns), but it does *not* cancel the 50 ms warning polls: any pending
warning-poll timer (whose id is not held in those fields) survives
`stopSession`, and is cancelled only lazily, by its own next tick
observing that the session is no longer active. -/
theorem stopTimers_amended :
    (∀ (s : PluginState) (b : Bool), s.sessionActive = true →
        (stopSession s b).sessionActive = false
        ∧ (∀ t ∈ (stopSession s b).pendingTimers,
            s.sessionInterval ≠ some t.id ∧ s.idleWatchdogTimeout ≠ some t.id
            ∧ s.statusBarInterval ≠ some t.id)
        ∧ (∀ t ∈ s.pendingTimers, t.kind = .warningPoll →
            s.sessionInterval ≠ some t.id → s.idleWatchdogTimeout ≠ some t.id →
            s.statusBarInterval ≠ some t.id →
            t ∈ (stopSession s b).pendingTimers))
    ∧ (∀ (s : PluginState) (st : Settings) (tid now : Nat),
        s.sessionActive = false →
        warningTick s st tid now = clearTimer s tid) := by
  constructor
  · intro s b hact
    refine ⟨stopSession_not_active b hact, ?_, ?_⟩
    · intro t ht
      exact ((stopSession_mem_pending b hact t).mp ht).2
    · intro t ht _ h1 h2 h3
      exact (stopSession_mem_pending b hact t).mpr ⟨ht, h1, h2, h3⟩
  · intro s st tid now h
    unfold warningTick
    rw [if_pos h]

/-- C5 amended witness: the concrete session of the counterexample: the
warning poll (id 2, not held in any field) survives `stopSession`, and a
later warning tick on the now-inactive state clears it. -/
theorem stopTimers_amended_witness :
    (stopSession (beginSession initialState 1 "hello".toList ⟨some 5, none⟩ 0) true).sessionActive = false
    ∧ (⟨2, .warningPoll⟩ : Timer)
        ∈ (stopSession (beginSession initialState 1 "hello".toList ⟨some 5, none⟩ 0) true).pendingTimers := by
  have h := stopTimers_amended.1
    (beginSession initialState 1 "hello".toList ⟨some 5, none⟩ 0) true (by decide)
  exact ⟨h.1, h.2.2 ⟨2, .warningPoll⟩ (by decide) rfl (by decide) (by decide) (by decide)⟩

end Zap
